import Mathlib

/-!
Verification development for the kraken trading-bot repository.

Shallow embedding conventions:
* JS floating-point numbers are modelled as exact rationals (`ℚ`); the
  Sharpe-ratio computation, which calls `Math.sqrt`, is modelled over `ℝ`.
* JS millisecond timestamps (`Date.now()`) are modelled as integers (`ℤ`).
* JS objects used as string-keyed number maps with lazy zero-initialisation
  (`if (!m[k]) m[k] = 0`) are modelled as total functions `String → ℚ` with
  default value 0, so the lazy initialisation is a no-op.
* Fallible code paths that `return null` are modelled with `Option`.
-/

namespace KrakenBot

/-- Semantics of the JS idiom `x || d` applied to an optional numeric
argument: `undefined`/`null` (here `none`) and the falsy number `0` both
fall back to the default `d`; any other number is kept. -/
def jsOr (x : Option ℚ) (d : ℚ) : ℚ :=
  match x with
  | none => d
  | some v => if v = 0 then d else v

/-- Integer version of `jsOr`, used for millisecond cooldown periods. -/
def jsOrInt (x : Option ℤ) (d : ℤ) : ℤ :=
  match x with
  | none => d
  | some v => if v = 0 then d else v

/-- Run-scoped configuration values read by the code from
`config/default.json` (and environment overrides): the `risk` section
(`maxRiskPerTrade`, `minimumBalance`, `stopLossPercentage`,
`takeProfitPercentage`), the `trading` section (`cooldownPeriod`), and the
`riskManagement` section used by the backtester
(`defaultStopLossPercent`, `defaultTakeProfitPercent`). -/
structure Config where
  maxRiskPerTrade : ℚ
  minimumBalance : ℚ
  stopLossPercentage : ℚ
  takeProfitPercentage : ℚ
  cooldownPeriod : ℤ
  defaultStopLossPercent : ℚ
  defaultTakeProfitPercent : ℚ
deriving DecidableEq, Repr

/-- Order side, `'buy'` or `'sell'`. -/
inductive Side where
  | buy
  | sell
deriving DecidableEq, Repr

/-- Position side used by the backtester's position tracking,
`'long'` or `'short'`. -/
inductive PosSide where
  | long
  | short
deriving DecidableEq, Repr

/-- Embedding of `riskManager.js` `calculateLotSize(symbol, currentPrice, accountBalance,
riskPercentage = null)`.  The `symbol` argument is only used for logging in
the source and is kept for fidelity.  Division is exact rational division
(the claims about this function assume `currentPrice > 0`). -/
def calculateLotSize (cfg : Config) (symbol : String) (currentPrice accountBalance : ℚ)
    (riskPercentage : Option ℚ) : ℚ :=
  let riskPercent := jsOr riskPercentage cfg.maxRiskPerTrade
  let maxRiskAmount := accountBalance * riskPercent
  let positionSize := maxRiskAmount / currentPrice
  if accountBalance < cfg.minimumBalance then 0
  else
    let maxTradeValue := accountBalance * cfg.maxRiskPerTrade
    let calculatedSize := min positionSize (maxTradeValue / currentPrice)
    max 0 calculatedSize

/-- Embedding of `riskManager.js` `calculateStopLoss(entryPrice, side, stopLossPercentage
= null)`: long (side `'buy'`) puts the stop below entry, anything else above. -/
def calculateStopLoss (cfg : Config) (entryPrice : ℚ) (side : Side)
    (stopLossPercentage : Option ℚ) : ℚ :=
  let stopLossPercent := jsOr stopLossPercentage cfg.stopLossPercentage
  match side with
  | .buy => entryPrice * (1 - stopLossPercent)
  | .sell => entryPrice * (1 + stopLossPercent)

/-- Embedding of `riskManager.js` `calculateTakeProfit(entryPrice, side,
takeProfitPercentage = null)`. -/
def calculateTakeProfit (cfg : Config) (entryPrice : ℚ) (side : Side)
    (takeProfitPercentage : Option ℚ) : ℚ :=
  let takeProfitPercent := jsOr takeProfitPercentage cfg.takeProfitPercentage
  match side with
  | .buy => entryPrice * (1 + takeProfitPercent)
  | .sell => entryPrice * (1 - takeProfitPercent)

/-- Embedding of `riskManager.js` `validateCooldown(lastTradeTime, cooldownPeriod =
null)`.  The wall-clock read `Date.now()` is made an explicit argument
`now`. -/
def validateCooldown (cfg : Config) (lastTradeTime : ℤ) (cooldownPeriod : Option ℤ)
    (now : ℤ) : Bool :=
  let cooldown := jsOrInt cooldownPeriod cfg.cooldownPeriod
  let timeSinceLastTrade := now - lastTradeTime
  decide (cooldown ≤ timeSinceLastTrade)

/-- One OHLCV candle (`{timestamp, open, high, low, close, volume}`);
`opn` stands for the `open` field (a Lean keyword). -/
structure Candle where
  timestamp : ℤ
  opn : ℚ
  high : ℚ
  low : ℚ
  close : ℚ
  volume : ℚ
deriving DecidableEq, Repr

/-- A simulated order pushed onto the backtester's `tradeLog`.  The source
id string `` `bt-${Date.now()}-${tradeLog.length}` `` is represented by its
two numeric components `idTime` and `idSeq` (the rendering
`(t, n) ↦ "bt-t-n"` is injective).  The `datetime` field
`new Date().toISOString()` is represented by the millisecond timestamp it
renders (the ISO rendering is injective on timestamps). -/
structure BtTrade where
  idTime : ℤ
  idSeq : ℕ
  symbol : String
  side : Side
  otype : String
  amount : ℚ
  price : ℚ
  status : String
  datetime : ℤ
  fee : ℚ
deriving DecidableEq, Repr

/-- Mutable ledger state of the backtester's simulated trading service:
`currentBalance`, `holdings`, `positions`, `tradeLog`. -/
structure BtState where
  currentBalance : ℚ
  holdings : String → ℚ
  positions : String → ℚ
  tradeLog : List BtTrade

/-- Point update of a string-keyed numeric map. -/
def mapUpdate (f : String → ℚ) (k : String) (v : ℚ) : String → ℚ :=
  fun s => if s = k then v else f s

/-- Resolution of the execution price in the backtester's `executeTrade`
(lines 38-51 of `backtester.js`): a truthy explicit `price` is used as is.
Otherwise the code tests `typeof currentCandle !== 'undefined'`; no binding
named `currentCandle` is in scope of the service closure (the only
declaration is a `let` local to the body of the loop in `runBacktest`), so
the test is false and the fallback branch logs an error and returns `null`.
Hence price resolution fails whenever `price` is absent or `0`. -/
def resolveTradePrice (price : Option ℚ) : Option ℚ :=
  match price with
  | none => none
  | some p => if p = 0 then none else some p

/-- Resolution of the trade amount (`amount || await calculateLotSize(s,
tradePrice, currentBalance)`). -/
def resolveAmount (cfg : Config) (st : BtState) (symbol : String) (amount : Option ℚ)
    (tradePrice : ℚ) : ℚ :=
  jsOr amount (calculateLotSize cfg symbol tradePrice st.currentBalance none)

/-- Construction and logging of the simulated order (lines 99-112 of
`backtester.js`): both `Date.now()` and `new Date()` are reads of the wall
clock, passed in as `now`; `tradeLog.length` is read before the push. -/
def finishTrade (st : BtState) (symbol : String) (side : Side) (otype : String)
    (amount price cost : ℚ) (now : ℤ) : Option BtTrade × BtState :=
  let tr : BtTrade :=
    { idTime := now
      idSeq := st.tradeLog.length
      symbol := symbol
      side := side
      otype := otype
      amount := amount
      price := price
      status := "closed"
      datetime := now
      fee := cost * (1 / 1000) }
  (some tr, { st with tradeLog := st.tradeLog ++ [tr] })

/-- The simulated trading service's `executeTrade(s, side, amount, type,
metadata, price)` from `backtester.js` (lines 36-113).  `none` models a
`null` return.  Note the structure of the source: the `holdings` block
(lines 68-82) and the `positions` block (lines 84-97) each run their own
check, and *both* add `tradeCost` to `currentBalance` on a successful sell;
on a sell that passes the holdings check but fails the positions check the
function returns `null` after having already mutated balance and holdings. -/
def executeTrade (cfg : Config) (st : BtState) (symbol : String) (side : Side)
    (amount : Option ℚ) (otype : String) (price : Option ℚ) (now : ℤ) :
    Option BtTrade × BtState :=
  match resolveTradePrice price with
  | none => (none, st)
  | some tradePrice =>
    let calculatedAmount := resolveAmount cfg st symbol amount tradePrice
    if calculatedAmount ≤ 0 then (none, st)
    else
      let tradeCost := calculatedAmount * tradePrice
      match side with
      | .buy =>
        if st.currentBalance < tradeCost then (none, st)
        else
          let st1 : BtState :=
            { st with
              currentBalance := st.currentBalance - tradeCost
              holdings := mapUpdate st.holdings symbol (st.holdings symbol + calculatedAmount) }
          let st2 : BtState :=
            { st1 with
              positions := mapUpdate st1.positions symbol (st1.positions symbol + calculatedAmount) }
          finishTrade st2 symbol Side.buy otype calculatedAmount tradePrice tradeCost now
      | .sell =>
        if st.holdings symbol < calculatedAmount then (none, st)
        else
          let st1 : BtState :=
            { st with
              currentBalance := st.currentBalance + tradeCost
              holdings := mapUpdate st.holdings symbol (st.holdings symbol - calculatedAmount) }
          if st1.positions symbol < calculatedAmount then (none, st1)
          else
            let st2 : BtState :=
              { st1 with
                currentBalance := st1.currentBalance + tradeCost
                positions := mapUpdate st1.positions symbol (st1.positions symbol - calculatedAmount) }
            finishTrade st2 symbol Side.sell otype calculatedAmount tradePrice tradeCost now

/-- An open position tracked in the backtester's
`simulatedTradingService.currentPositions[s]`. -/
structure Position where
  side : PosSide
  entryPrice : ℚ
  amount : ℚ
  stopLossPrice : ℚ
  takeProfitPrice : ℚ
deriving DecidableEq, Repr

/-- Exit action decided by `monitorAndExitPositions`. -/
inductive ExitKind where
  | stop_loss
  | take_profit
deriving DecidableEq, Repr

/-- The exit decision of `monitorAndExitPositions` (lines 141-154 of
`backtester.js`): the stop-loss comparison is evaluated first, the
take-profit one only in its `else` branch. -/
def exitAction (position : Position) (currentPrice : ℚ) : Option ExitKind :=
  match position.side with
  | .long =>
    if currentPrice ≤ position.stopLossPrice then some .stop_loss
    else if position.takeProfitPrice ≤ currentPrice then some .take_profit
    else none
  | .short =>
    if position.stopLossPrice ≤ currentPrice then some .stop_loss
    else if currentPrice ≤ position.takeProfitPrice then some .take_profit
    else none

/-- Embedding of `managePosition(s, side, entryPrice, amount, strategyRiskConfig)` of the
simulated service (lines 115-135): computes stop/target prices from the
strategy's percentages (falling back to the configured defaults via `||`)
and stores the position under the symbol. -/
def managePosition (cfg : Config) (cur : String → Option Position) (symbol : String)
    (side : PosSide) (entryPrice amount : ℚ) (slPct tpPct : Option ℚ) :
    String → Option Position :=
  let stopLossPercent := jsOr slPct cfg.defaultStopLossPercent
  let takeProfitPercent := jsOr tpPct cfg.defaultTakeProfitPercent
  let stopLossPrice :=
    match side with
    | .long => entryPrice * (1 - stopLossPercent)
    | .short => entryPrice * (1 + stopLossPercent)
  let takeProfitPrice :=
    match side with
    | .long => entryPrice * (1 + takeProfitPercent)
    | .short => entryPrice * (1 - takeProfitPercent)
  fun s => if s = symbol then
    some { side := side, entryPrice := entryPrice, amount := amount,
           stopLossPrice := stopLossPrice, takeProfitPrice := takeProfitPrice }
  else cur s

/-- A call a strategy makes into the simulated trading service while its
`run(candle, history)` executes: either `executeTrade(symbol, side, amount,
type, metadata, price)` or `managePosition(symbol, side, entryPrice,
amount, strategyRiskConfig)`. -/
inductive StratCmd where
  | trade (side : Side) (amount : Option ℚ) (otype : String) (price : Option ℚ)
  | openPos (side : PosSide) (entryPrice amount : ℚ) (slPct tpPct : Option ℚ)

/-- A deterministic strategy: internal state type `σ`, an initial state, a
pure `run` step producing the service calls it makes on one candle, and the
effect of `clearPosition()` on its state. -/
structure Strategy (σ : Type) where
  start : σ
  run : Candle → List Candle → σ → σ × List StratCmd
  clearPos : σ → σ

/-- State threaded through the backtest replay loop: the simulated ledger,
the service's `currentPositions`, the strategy's internal state, and the
equity curve being built. -/
structure FullState (σ : Type) where
  bt : BtState
  currentPositions : String → Option Position
  strat : σ
  equityCurve : List (ℤ × ℚ)

/-- One point `{timestamp, balance}` of the equity curve (the timestamp is
kept as the raw candle timestamp the source renders to an ISO string). -/
abbrev EquityPoint : Type := ℤ × ℚ

/-- Embedding of `monitorAndExitPositions(s, currentPrice)` (lines 137-164): if an exit
triggers, an exit trade with explicit amount and price is executed, the
position entry is deleted and the strategy's `clearPosition()` runs —
unconditionally, even when the exit trade itself returned `null`.  Wall
clock reads are supplied by `clock`, indexed by the trade-log length at the
moment of the read. -/
def monitorAndExitPositions {σ : Type} (cfg : Config) (clock : ℕ → ℤ)
    (strategy : Strategy σ) (st : FullState σ) (symbol : String) (currentPrice : ℚ) :
    FullState σ :=
  match st.currentPositions symbol with
  | none => st
  | some position =>
    match exitAction position currentPrice with
    | none => st
    | some _ =>
      let exitSide := match position.side with | .long => Side.sell | .short => Side.buy
      let res := executeTrade cfg st.bt symbol exitSide (some position.amount)
        "market" (some currentPrice) (clock st.bt.tradeLog.length)
      { st with
        bt := res.2
        currentPositions := fun s => if s = symbol then none else st.currentPositions s
        strat := strategy.clearPos st.strat }

/-- Application of one strategy-emitted service call to the loop state. -/
def applyCmd {σ : Type} (cfg : Config) (clock : ℕ → ℤ) (symbol : String)
    (st : FullState σ) : StratCmd → FullState σ
  | .trade side amount otype price =>
    { st with
      bt := (executeTrade cfg st.bt symbol side amount otype price
        (clock st.bt.tradeLog.length)).2 }
  | .openPos side entryPrice amount slPct tpPct =>
    { st with
      currentPositions :=
        managePosition cfg st.currentPositions symbol side entryPrice amount slPct tpPct }

/-- One iteration of the `runBacktest` loop body (lines 211-227): exit
check at the candle's close, then the strategy's `run` on the candle and
the history up to and including it, then the equity-curve push. -/
def btStep {σ : Type} (cfg : Config) (clock : ℕ → ℤ) (strategy : Strategy σ)
    (symbol : String) (st : FullState σ) (candle : Candle) (hist : List Candle) :
    FullState σ :=
  let st1 := monitorAndExitPositions cfg clock strategy st symbol candle.close
  let pr := strategy.run candle hist st1.strat
  let st2 := pr.2.foldl (applyCmd cfg clock symbol) { st1 with strat := pr.1 }
  { st2 with equityCurve := st2.equityCurve ++ [(candle.timestamp, st2.bt.currentBalance)] }

/-- The candle replay loop of `runBacktest`; `hist` is the already-processed
prefix of the candle list. -/
def btLoop {σ : Type} (cfg : Config) (clock : ℕ → ℤ) (strategy : Strategy σ)
    (symbol : String) : FullState σ → List Candle → List Candle → FullState σ
  | st, _, [] => st
  | st, hist, c :: rest =>
    btLoop cfg clock strategy symbol (btStep cfg clock strategy symbol st c (hist ++ [c]))
      (hist ++ [c]) rest

/-- Observable outcome of a backtest run: final cash balance, trade log and
equity curve (the inputs of the performance-metric computation). -/
structure BtRunResult where
  balance : ℚ
  tradeLog : List BtTrade
  equityCurve : List (ℤ × ℚ)
deriving DecidableEq, Repr

/-- Embedding of `runBacktest()` (lines 205-247): resets balance and trade log, seeds
the equity curve with one point carrying the *first candle's* timestamp and
the initial capital (`backtestData[0]`; on an empty candle list this access
throws, modelled as `none`), replays every candle, and returns the data the
performance metrics are computed from. -/
def runBacktest {σ : Type} (cfg : Config) (strategy : Strategy σ) (symbol : String)
    (initialCapital : ℚ) (clock : ℕ → ℤ) (candles : List Candle) : Option BtRunResult :=
  match candles with
  | [] => none
  | c0 :: _ =>
    let st0 : FullState σ :=
      { bt := { currentBalance := initialCapital, holdings := fun _ => 0,
                positions := fun _ => 0, tradeLog := [] }
        currentPositions := fun _ => none
        strat := strategy.start
        equityCurve := [(c0.timestamp, initialCapital)] }
    let stF := btLoop cfg clock strategy symbol st0 [] candles
    some { balance := stF.bt.currentBalance, tradeLog := stF.bt.tradeLog,
           equityCurve := stF.equityCurve }

/-- A simulated order recorded by the paper trader.  The id string
`` `paper-${side}-${timestamp}` `` is represented by its components. -/
structure PaperTrade where
  idSide : Side
  idTime : ℤ
  base : String
  quote : String
  side : Side
  otype : String
  amount : ℚ
  price : ℚ
  status : String
  datetime : ℤ
  fee : ℚ
deriving DecidableEq, Repr

/-- Mutable state of `paperTrader.js`: the virtual balances map and the
executed-trade list. -/
structure PaperState where
  currentBalances : String → ℚ
  trades : List PaperTrade

/-- Embedding of `paperTrader.js` `executeTrade(symbol, side, amount, type, price)`
(lines 39-91).  The symbol `"B/Q"` is passed as its split components
`base`/`quote`; `executionPrice` is the already-resolved execution price
(the ticker price for market orders, the caller's price for limit orders);
`now` is the `Date.now()` read at the top of the call. -/
def paperExecuteTrade (st : PaperState) (base quote : String) (side : Side)
    (amount : ℚ) (otype : String) (executionPrice : ℚ) (now : ℤ) :
    Option PaperTrade × PaperState :=
  let tradeCost := amount * executionPrice
  let mkOrder : PaperState → Option PaperTrade × PaperState := fun st2 =>
    let order : PaperTrade :=
      { idSide := side, idTime := now, base := base, quote := quote, side := side,
        otype := otype, amount := amount, price := executionPrice,
        status := "closed", datetime := now, fee := tradeCost * (1 / 1000) }
    (some order, { st2 with trades := st2.trades ++ [order] })
  match side with
  | .buy =>
    if st.currentBalances quote < tradeCost then (none, st)
    else
      let b1 := mapUpdate st.currentBalances quote (st.currentBalances quote - tradeCost)
      let b2 := mapUpdate b1 base (b1 base + amount)
      mkOrder { st with currentBalances := b2 }
  | .sell =>
    if st.currentBalances base < amount then (none, st)
    else
      let b1 := mapUpdate st.currentBalances quote (st.currentBalances quote + tradeCost)
      let b2 := mapUpdate b1 base (b1 base - amount)
      mkOrder { st with currentBalances := b2 }

/-- A JS number that may be `Infinity`, as returned by
`calculateSharpeRatio`. -/
inductive JsVal where
  | num (x : ℝ)
  | inf

/-- The per-step returns loop of `calculateSharpeRatio`
(`performanceMetrics.js` lines 106-115): for consecutive balances, push
`(cur - prev) / prev`, or `0` when the previous balance is `0`. -/
noncomputable def stepReturns : List ℝ → List ℝ
  | prev :: cur :: rest =>
    (if prev = 0 then 0 else (cur - prev) / prev) :: stepReturns (cur :: rest)
  | _ => []

/-- Embedding of `performanceMetrics.js` `calculateSharpeRatio(equityCurve,
riskFreeRate)` (lines 103-127), applied to the list of balances of the
equity curve (the only field the function reads).  `Math.sqrt` is modelled
by `Real.sqrt`. -/
noncomputable def calculateSharpeRatio (balances : List ℝ) (riskFreeRate : ℝ) : JsVal :=
  if balances.length < 2 then .num 0
  else
    let returns := stepReturns balances
    if returns.length = 0 then .num 0
    else
      let meanReturn := returns.sum / returns.length
      let excessReturns := returns.map (fun r => r - riskFreeRate)
      let stdDev :=
        Real.sqrt ((excessReturns.map (fun x => x * x)).sum / excessReturns.length)
      if stdDev = 0 then .inf else .num (meanReturn / stdDev)

/-- Written from the words of claim C7: per-step returns as in the code,
excess returns, then `mean(excess) / populationStdDev(excess)` where the
standard deviation is the square root of the mean squared deviation of the
excess returns from their own mean; when that deviation is `0`, `+∞` for a
positive mean excess return and `0` otherwise. -/
noncomputable def sharpeClaimC7 (balances : List ℝ) (riskFreeRate : ℝ) : JsVal :=
  let excess := (stepReturns balances).map (fun r => r - riskFreeRate)
  let meanExcess := excess.sum / excess.length
  let popStdDev :=
    Real.sqrt ((excess.map (fun x => (x - meanExcess) * (x - meanExcess))).sum / excess.length)
  if popStdDev = 0 then (if 0 < meanExcess then .inf else .num 0)
  else .num (meanExcess / popStdDev)

/-- Written from the words of the amended claim C7: on a curve of at least
two points the result is the mean of the *raw* per-step returns divided by
the *root-mean-square* of the excess returns, and `+∞` whenever that
root-mean-square is `0`, regardless of the mean's sign.  The returns are
expressed by a `zipWith` over the curve and its tail rather than the
source's index loop. -/
noncomputable def sharpeAmendedC7 (balances : List ℝ) (riskFreeRate : ℝ) : JsVal :=
  match balances with
  | _ :: _ :: _ =>
    let returns :=
      List.zipWith (fun prev cur => if prev = 0 then 0 else (cur - prev) / prev)
        balances balances.tail
    let meanReturn := returns.sum / returns.length
    let excess := returns.map (fun r => r - riskFreeRate)
    let rms := Real.sqrt ((excess.map (fun x => x * x)).sum / excess.length)
    if rms = 0 then .inf else .num (meanReturn / rms)
  | _ => .num 0

/-- The fields of a backtest trade record other than the two derived from
the wall clock (the `Date.now()` component of the id, and `datetime`).
The sequence component of the id — a monotonic counter — is kept. -/
structure TradeNoClock where
  idSeq : ℕ
  symbol : String
  side : Side
  otype : String
  amount : ℚ
  price : ℚ
  status : String
  fee : ℚ
deriving DecidableEq, Repr

/-- Projection of a trade record onto its wall-clock-independent fields. -/
def stripClock (t : BtTrade) : TradeNoClock :=
  { idSeq := t.idSeq, symbol := t.symbol, side := t.side, otype := t.otype,
    amount := t.amount, price := t.price, status := t.status, fee := t.fee }

/-- The fields of a backtest trade record other than the id — in
particular the `datetime` field is kept.  Claim C3 allows only the id to
vary between two replays of the same data. -/
structure TradeNoId where
  symbol : String
  side : Side
  otype : String
  amount : ℚ
  price : ℚ
  status : String
  datetime : ℤ
  fee : ℚ
deriving DecidableEq, Repr

/-- Projection of a trade record onto everything but its id. -/
def stripId (t : BtTrade) : TradeNoId :=
  { symbol := t.symbol, side := t.side, otype := t.otype, amount := t.amount,
    price := t.price, status := t.status, datetime := t.datetime, fee := t.fee }

/-- A backtest run outcome with the wall-clock-derived trade fields erased. -/
structure RunNoClock where
  balance : ℚ
  tradeLog : List TradeNoClock
  equityCurve : List (ℤ × ℚ)
deriving DecidableEq, Repr

/-- Erasure of the wall-clock-derived fields from a run outcome. -/
def stripRun (r : BtRunResult) : RunNoClock :=
  { balance := r.balance, tradeLog := r.tradeLog.map stripClock,
    equityCurve := r.equityCurve }

/-- Agreement of two ledger states up to the wall-clock fields of their
logged trades. -/
def BtAgree (s t : BtState) : Prop :=
  s.currentBalance = t.currentBalance ∧ s.holdings = t.holdings ∧
    s.positions = t.positions ∧ s.tradeLog.map stripClock = t.tradeLog.map stripClock

/-- Agreement of two replay-loop states up to the wall-clock fields of
their logged trades. -/
def FsAgree {σ : Type} (s t : FullState σ) : Prop :=
  BtAgree s.bt t.bt ∧ s.currentPositions = t.currentPositions ∧
    s.strat = t.strat ∧ s.equityCurve = t.equityCurve

/-- Non-negativity of every balance tracked by the backtester's ledger. -/
def BtNonNeg (st : BtState) : Prop :=
  0 ≤ st.currentBalance ∧ (∀ s, 0 ≤ st.holdings s) ∧ (∀ s, 0 ≤ st.positions s)

/-- Non-negativity of every balance of the paper-trading ledger. -/
def PaperNonNeg (st : PaperState) : Prop :=
  ∀ s, 0 ≤ st.currentBalances s

/-- One call to the backtester's `executeTrade`, for stating properties of
arbitrary call sequences. -/
structure BtCall where
  symbol : String
  side : Side
  amount : Option ℚ
  otype : String
  price : Option ℚ
  now : ℤ

/-- Sequential application of a list of `executeTrade` calls to a ledger
state (each call's returned order is discarded, its state kept). -/
def applyBtCalls (cfg : Config) (st : BtState) (calls : List BtCall) : BtState :=
  calls.foldl
    (fun s c => (executeTrade cfg s c.symbol c.side c.amount c.otype c.price c.now).2) st

/-- One call to the paper trader's `executeTrade`. -/
structure PaperCall where
  base : String
  quote : String
  side : Side
  amount : ℚ
  otype : String
  price : ℚ
  now : ℤ

/-- Sequential application of a list of paper-trading `executeTrade` calls. -/
def applyPaperCalls (st : PaperState) (calls : List PaperCall) : PaperState :=
  calls.foldl
    (fun s c => (paperExecuteTrade s c.base c.quote c.side c.amount c.otype c.price c.now).2) st

/-! Concrete fixtures used by counterexamples and witnesses. -/

/-- A sample configuration: `maxRiskPerTrade = 0.02`, `minimumBalance =
100`, stop/target percentages `0.05`/`0.15`, `cooldownPeriod = 60000` ms. -/
def cfgA : Config :=
  { maxRiskPerTrade := 1 / 50
    minimumBalance := 100
    stopLossPercentage := 1 / 20
    takeProfitPercentage := 3 / 20
    cooldownPeriod := 60000
    defaultStopLossPercent := 1 / 20
    defaultTakeProfitPercent := 3 / 20 }

/-- A sample trading pair symbol. -/
def symBTC : String := "BTC/USD"

/-- The `'market'` order type. -/
def mkt : String := "market"

/-- A ledger state with 5 in cash and no holdings. -/
def stBal5 : BtState :=
  { currentBalance := 5, holdings := fun _ => 0, positions := fun _ => 0, tradeLog := [] }

/-- Holdings map with one unit of `symBTC` and nothing else. -/
def oneBTC : String → ℚ := fun s => if s = symBTC then 1 else 0

/-- A ledger state with no cash and one unit of `symBTC` held (holdings and
positions agree, as they do in every reachable backtest state). -/
def stHold1 : BtState :=
  { currentBalance := 0, holdings := oneBTC, positions := oneBTC, tradeLog := [] }

/-- A long position whose stop (95) lies above its target (80), so a tick
at 90 — as on a gapping candle — satisfies both exit conditions at once. -/
def posGap : Position :=
  { side := .long, entryPrice := 100, amount := 1, stopLossPrice := 95, takeProfitPrice := 80 }

/-- The strategy that never trades. -/
def stratNone : Strategy Unit :=
  { start := (), run := fun _ _ s => (s, []), clearPos := id }

/-- A strategy that submits one explicit buy of 1 unit at price 10 on every
candle. -/
def stratBuy : Strategy Unit :=
  { start := ()
    run := fun _ _ s => (s, [StratCmd.trade Side.buy (some 1) mkt (some 10)])
    clearPos := id }

/-- One flat candle at price 10. -/
def candleA : Candle :=
  { timestamp := 1000, opn := 10, high := 10, low := 10, close := 10, volume := 1 }

/-- The base asset of the sample pair. -/
def assetBTC : String := "BTC"

/-- The quote asset of the sample pair. -/
def assetUSD : String := "USD"

/-- A sample backtest call sequence: one explicit sell of 1 unit at 100. -/
def btCallsW : List BtCall :=
  [{ symbol := symBTC, side := Side.sell, amount := some 1, otype := mkt,
     price := some 100, now := 0 }]

/-- A sample paper-trading call sequence: one buy of 1 unit at 50. -/
def pCallsW : List PaperCall :=
  [{ base := assetBTC, quote := assetUSD, side := Side.buy, amount := 1, otype := mkt,
     price := 50, now := 0 }]

/-- The paper trader's initial virtual balances: 10000 USD and nothing
else. -/
def paper0 : PaperState :=
  { currentBalances := fun s => if s = assetUSD then 10000 else 0, trades := [] }

/-! Theorems. -/

/-- C5: `calculateLotSize` returns 0 whenever the account balance is below
the configured minimum; otherwise, for a positive price, it returns
`min(balance*riskPct, balance*maxRiskPerTrade) / price` floored at 0, the
risk percentage falling back to `maxRiskPerTrade` when not supplied; and in
particular, with `maxRiskPerTrade = 0.02` and `minimumBalance ≤ 10000`,
`calculateLotSize(sym, 50000, 10000, 0.02) = 0.004`. -/
theorem calculateLotSize_contract (cfg : Config) (sym : String) (price bal : ℚ)
    (rp : Option ℚ) :
    (bal < cfg.minimumBalance → calculateLotSize cfg sym price bal rp = 0) ∧
    (cfg.minimumBalance ≤ bal → 0 < price →
      calculateLotSize cfg sym price bal rp =
        max 0 (min (bal * jsOr rp cfg.maxRiskPerTrade) (bal * cfg.maxRiskPerTrade) / price)) ∧
    (cfg.maxRiskPerTrade = 1 / 50 → cfg.minimumBalance ≤ 10000 →
      calculateLotSize cfg sym 50000 10000 (some (1 / 50)) = 1 / 250) := by
  refine ⟨fun h => ?_, fun h hp => ?_, fun hm hb => ?_⟩
  · simp only [calculateLotSize, if_pos h]
  · simp only [calculateLotSize, if_neg (not_lt.mpr h)]
    rw [min_div_div_right (le_of_lt hp)]
  · simp only [calculateLotSize, jsOr, if_neg (not_lt.mpr hb), hm]
    norm_num

/-- Witness for C5 at a concrete configuration and balances. -/
theorem calculateLotSize_contract_witness :
    calculateLotSize cfgA symBTC 50000 10000 (some (1 / 50)) = 1 / 250 ∧
    calculateLotSize cfgA symBTC 50000 50 (some (1 / 50)) = 0 :=
  ⟨(calculateLotSize_contract cfgA symBTC 50000 10000 (some (1 / 50))).2.2 rfl
      (by norm_num [cfgA]),
   (calculateLotSize_contract cfgA symBTC 50000 50 (some (1 / 50))).1 (by norm_num [cfgA])⟩

/-- C6 counterexample: with the configured default cooldown of 60000 ms, a
call with an explicit `cooldownPeriod = 0` and `now - lastTradeTime = 0`
returns `false`, although the claim (`now - lastTradeTime ≥ cooldownPeriod`,
and zero cooldown always passes) requires `true`. -/
theorem validateCooldown_zero_counterexample :
    validateCooldown cfgA 0 (some 0) 0 = false ∧
    cfgA.cooldownPeriod = 60000 ∧ (0 : ℤ) ≤ 0 - 0 := by
  refine ⟨?_, rfl, le_refl 0⟩
  decide

/-- C6 amended: `validateCooldown` returns true iff `now - lastTradeTime`
is at least the *effective* cooldown, where the effective cooldown is the
explicit `cooldownPeriod` when that is supplied and nonzero, and the
configured default otherwise — so an explicit 0 falls back to the default
rather than always passing. -/
theorem validateCooldown_amended (cfg : Config) (last now : ℤ) :
    (∀ cd : ℤ, cd ≠ 0 →
      (validateCooldown cfg last (some cd) now = true ↔ cd ≤ now - last)) ∧
    validateCooldown cfg last (some 0) now = validateCooldown cfg last none now ∧
    (validateCooldown cfg last none now = true ↔ cfg.cooldownPeriod ≤ now - last) := by
  refine ⟨fun cd hcd => ?_, ?_, ?_⟩
  · simp [validateCooldown, jsOrInt, hcd]
  · simp [validateCooldown, jsOrInt]
  · simp [validateCooldown, jsOrInt]

/-- Witness for C6's amended theorem at concrete times. -/
theorem validateCooldown_amended_witness :
    (validateCooldown cfgA 0 (some 5) 10 = true ↔ (5 : ℤ) ≤ 10 - 0) ∧
    validateCooldown cfgA 0 (some 0) 7 = validateCooldown cfgA 0 none 7 :=
  ⟨(validateCooldown_amended cfgA 0 10).1 5 (by decide),
   (validateCooldown_amended cfgA 0 7).2.1⟩

/-- C8: when one tick satisfies both the stop-loss and the take-profit
condition of an open position (price at or below the stop and at or above
the target for a long; mirrored for a short), the exit check resolves it to
`stop_loss`, never `take_profit`. -/
theorem exitAction_stoploss_precedence (position : Position) (price : ℚ)
    (h : (position.side = .long ∧ price ≤ position.stopLossPrice ∧
            position.takeProfitPrice ≤ price) ∨
         (position.side = .short ∧ position.stopLossPrice ≤ price ∧
            price ≤ position.takeProfitPrice)) :
    exitAction position price = some ExitKind.stop_loss := by
  rcases h with ⟨hs, h1, _⟩ | ⟨hs, h1, _⟩ <;>
    simp [exitAction, hs, if_pos h1]

/-- Witness for C8: a long position gapped through both levels at once. -/
theorem exitAction_stoploss_precedence_witness :
    posGap.side = PosSide.long ∧ (90 : ℚ) ≤ posGap.stopLossPrice ∧
    posGap.takeProfitPrice ≤ (90 : ℚ) ∧
    exitAction posGap 90 = some ExitKind.stop_loss :=
  ⟨rfl, by norm_num [posGap], by norm_num [posGap],
   exitAction_stoploss_precedence posGap 90 (Or.inl ⟨rfl, by norm_num [posGap], by norm_num [posGap]⟩)⟩

/-- C10: for each Risk Gate function taking an optional percentage or
period, passing an explicit 0 behaves exactly like omitting the argument:
the `||` fallback treats 0 as falsy and substitutes the configured
default. -/
theorem explicit_zero_equals_omitted (cfg : Config) (sym : String)
    (price bal entry : ℚ) (side : Side) (last now : ℤ) :
    calculateLotSize cfg sym price bal (some 0) = calculateLotSize cfg sym price bal none ∧
    calculateStopLoss cfg entry side (some 0) = calculateStopLoss cfg entry side none ∧
    calculateTakeProfit cfg entry side (some 0) = calculateTakeProfit cfg entry side none ∧
    validateCooldown cfg last (some 0) now = validateCooldown cfg last none now := by
  refine ⟨?_, ?_, ?_, ?_⟩ <;>
    simp [calculateLotSize, calculateStopLoss, calculateTakeProfit, validateCooldown,
      jsOr, jsOrInt]

/-- The backtester's `positions` map always mirrors its `holdings` map: the
two are initialised together and mutated together by every successful
trade, so the property holds in every reachable backtest state (shared
helper justifying the invariant hypothesis of the C1 theorem). -/
theorem executeTrade_preserves_posEqHold (cfg : Config) (st : BtState) (symbol : String)
    (side : Side) (amount : Option ℚ) (otype : String) (price : Option ℚ) (now : ℤ)
    (hinv : ∀ s, st.positions s = st.holdings s) :
    ∀ s, (executeTrade cfg st symbol side amount otype price now).2.positions s =
      (executeTrade cfg st symbol side amount otype price now).2.holdings s := by
  intro s
  unfold executeTrade
  rcases price with _ | p
  · exact hinv s
  · simp only [resolveTradePrice]
    by_cases hp : p = 0
    · simp only [if_pos hp]; exact hinv s
    · simp only [if_neg hp]
      set A := resolveAmount cfg st symbol amount p with hA
      by_cases hA0 : A ≤ 0
      · simp only [if_pos hA0]; exact hinv s
      · simp only [if_neg hA0]
        cases side
        · by_cases hb : st.currentBalance < A * p
          · simp only [if_pos hb]; exact hinv s
          · simp only [if_neg hb, finishTrade, mapUpdate]
            by_cases hs : s = symbol <;> simp [hs, hinv s, hinv symbol]
        · by_cases hh : st.holdings symbol < A
          · simp only [if_pos hh]; exact hinv s
          · simp only [if_neg hh]
            by_cases hpos : st.positions symbol < A
            · exact absurd (hinv symbol ▸ hpos) (not_lt.mpr (not_lt.mp hh))
            · simp only [if_neg hpos, finishTrade, mapUpdate]
              by_cases hs : s = symbol <;> simp [hs, hinv s, hinv symbol]

/-- C1: in any backtest state whose positions map mirrors its holdings map
(as every reachable state does), an `executeTrade` call that fails its
balance check — a buy with cash balance below `amount × price`, or a sell
with holdings below `amount` — returns `null` and leaves the entire state
(cash balance, holdings, positions, trade log) exactly as it was. -/
theorem executeTrade_insufficient_no_mutation (cfg : Config) (st : BtState)
    (symbol : String) (side : Side) (amount : Option ℚ) (otype : String) (p : ℚ)
    (now : ℤ)
    (hinv : ∀ s, st.positions s = st.holdings s)
    (hfail : (side = Side.buy ∧
                st.currentBalance < resolveAmount cfg st symbol amount p * p) ∨
             (side = Side.sell ∧
                st.holdings symbol < resolveAmount cfg st symbol amount p)) :
    executeTrade cfg st symbol side amount otype (some p) now = (none, st) := by
  unfold executeTrade
  simp only [resolveTradePrice]
  by_cases hp : p = 0
  · simp only [if_pos hp]
  · simp only [if_neg hp]
    set A := resolveAmount cfg st symbol amount p with hA
    by_cases hA0 : A ≤ 0
    · simp only [if_pos hA0]
    · simp only [if_neg hA0]
      rcases hfail with ⟨hs, hb⟩ | ⟨hs, hh⟩ <;> subst hs
      · simp only [if_pos hb]
      · simp only [if_pos hh]

/-- Witness for C1: a buy of 1 unit at price 10 against a cash balance of
5 fails the balance check and leaves the state untouched. -/
theorem executeTrade_insufficient_no_mutation_witness :
    (∀ s, stBal5.positions s = stBal5.holdings s) ∧
    stBal5.currentBalance < resolveAmount cfgA stBal5 symBTC (some 1) 10 * 10 ∧
    executeTrade cfgA stBal5 symBTC Side.buy (some 1) mkt (some 10) 0 = (none, stBal5) :=
  ⟨fun _ => rfl, by norm_num [stBal5, resolveAmount, jsOr],
   executeTrade_insufficient_no_mutation cfgA stBal5 symBTC Side.buy (some 1) mkt 10 0
     (fun _ => rfl) (Or.inl ⟨rfl, by norm_num [stBal5, resolveAmount, jsOr]⟩)⟩

/-- C2 (code bug): a successful sell credits the cash balance with the
notional *twice* — once in the holdings block (line 80 of `backtester.js`)
and once more in the duplicated positions block (line 93).  Selling 1 unit
at price 100 from a zero cash balance leaves a balance of 200, not the 100
the claim (and §4.4 of the spec) requires. -/
theorem executeTrade_sell_credits_twice :
    (executeTrade cfgA stHold1 symBTC Side.sell (some 1) mkt (some 100) 0).2.currentBalance
      = 200 ∧
    stHold1.currentBalance + 1 * 100 = 100 ∧ ((200 : ℚ) ≠ 100) := by
  refine ⟨?_, by norm_num [stHold1], by norm_num⟩
  simp only [executeTrade, resolveTradePrice, resolveAmount, jsOr, stHold1, oneBTC,
    finishTrade, mapUpdate]
  norm_num

/-- Strategy-emitted service calls never touch the equity curve. -/
theorem applyCmd_equityCurve {σ : Type} (cfg : Config) (clock : ℕ → ℤ) (symbol : String)
    (st : FullState σ) (c : StratCmd) :
    (applyCmd cfg clock symbol st c).equityCurve = st.equityCurve := by
  cases c <;> rfl

/-- Folding strategy-emitted service calls never touches the equity curve. -/
theorem foldl_applyCmd_equityCurve {σ : Type} (cfg : Config) (clock : ℕ → ℤ)
    (symbol : String) (cmds : List StratCmd) :
    ∀ st : FullState σ,
      (cmds.foldl (applyCmd cfg clock symbol) st).equityCurve = st.equityCurve := by
  induction cmds with
  | nil => intro st; rfl
  | cons c rest ih =>
    intro st
    rw [List.foldl_cons, ih, applyCmd_equityCurve]

/-- The exit check never touches the equity curve. -/
theorem monitorAndExit_equityCurve {σ : Type} (cfg : Config) (clock : ℕ → ℤ)
    (strategy : Strategy σ) (st : FullState σ) (symbol : String) (price : ℚ) :
    (monitorAndExitPositions cfg clock strategy st symbol price).equityCurve =
      st.equityCurve := by
  unfold monitorAndExitPositions
  split
  · rfl
  · split <;> rfl

/-- Each loop iteration appends exactly one equity point, carrying the
processed candle's timestamp. -/
theorem btStep_equityCurve {σ : Type} (cfg : Config) (clock : ℕ → ℤ)
    (strategy : Strategy σ) (symbol : String) (st : FullState σ) (c : Candle)
    (hist : List Candle) :
    (btStep cfg clock strategy symbol st c hist).equityCurve =
      st.equityCurve ++
        [(c.timestamp, (btStep cfg clock strategy symbol st c hist).bt.currentBalance)] := by
  simp only [btStep, foldl_applyCmd_equityCurve, monitorAndExit_equityCurve]

/-- Over the replay loop the equity-curve timestamps grow by exactly the
timestamps of the processed candles, in order. -/
theorem btLoop_equity_timestamps {σ : Type} (cfg : Config) (clock : ℕ → ℤ)
    (strategy : Strategy σ) (symbol : String) (cs : List Candle) :
    ∀ (st : FullState σ) (hist : List Candle),
      (btLoop cfg clock strategy symbol st hist cs).equityCurve.map Prod.fst =
        st.equityCurve.map Prod.fst ++ cs.map Candle.timestamp := by
  induction cs with
  | nil => intro st hist; simp [btLoop]
  | cons c rest ih =>
    intro st hist
    rw [btLoop, ih, btStep_equityCurve]
    simp

/-- C4 amended: on a non-empty candle sequence of length `n`, `runBacktest`
appends exactly one equity point per processed candle, in candle order
(the point appended for the i-th candle carries its timestamp) — but the
curve is seeded before the loop with an extra initial point carrying the
first candle's timestamp, so the finished equity curve has length `n + 1`,
not `n`. -/
theorem runBacktest_equity_per_candle {σ : Type} (cfg : Config) (strategy : Strategy σ)
    (symbol : String) (cap : ℚ) (clock : ℕ → ℤ) (c0 : Candle) (cs : List Candle) :
    ∃ r, runBacktest cfg strategy symbol cap clock (c0 :: cs) = some r ∧
      r.equityCurve.map Prod.fst = c0.timestamp :: (c0 :: cs).map Candle.timestamp ∧
      r.equityCurve.length = (c0 :: cs).length + 1 := by
  refine ⟨_, rfl, ?_⟩
  have hmap :
      (btLoop cfg clock strategy symbol
        { bt := { currentBalance := cap, holdings := fun _ => 0,
                  positions := fun _ => 0, tradeLog := [] }
          currentPositions := fun _ => none
          strat := strategy.start
          equityCurve := [(c0.timestamp, cap)] } [] (c0 :: cs)).equityCurve.map Prod.fst =
        c0.timestamp :: (c0 :: cs).map Candle.timestamp := by
    rw [btLoop_equity_timestamps]
    simp
  refine ⟨hmap, ?_⟩
  have hlen := congrArg List.length hmap
  simpa using hlen

/-- C4 counterexample: a single-candle run with a strategy that never
trades finishes with an equity curve of length 2, not 1. -/
theorem runBacktest_equity_len_counterexample :
    Option.map (fun r => r.equityCurve.length)
      (runBacktest cfgA stratNone symBTC 10000 (fun _ => 0) [candleA]) = some 2 ∧
    (2 : ℕ) ≠ 1 := by
  exact ⟨rfl, by decide⟩

/-- Appending the simulated order to the trade log changes no balance. -/
theorem finishTrade_nonneg (st : BtState) (symbol : String) (side : Side) (otype : String)
    (amount price cost : ℚ) (now : ℤ) (h : BtNonNeg st) :
    BtNonNeg (finishTrade st symbol side otype amount price cost now).2 := h

/-- A point update with a non-negative value keeps a non-negative map
non-negative. -/
theorem mapUpdate_nonneg {f : String → ℚ} {k : String} {v : ℚ} (hv : 0 ≤ v)
    (hf : ∀ s, 0 ≤ f s) : ∀ s, 0 ≤ mapUpdate f k v s := by
  intro s
  unfold mapUpdate
  split
  · exact hv
  · exact hf s

/-- One backtest `executeTrade` call with a non-negative price keeps every
ledger balance non-negative: failed checks leave the state untouched, a buy
only debits cash it verified to be present, and a sell only debits holdings
and positions it verified to be present. -/
theorem executeTrade_nonneg (cfg : Config) (st : BtState) (symbol : String) (side : Side)
    (amount : Option ℚ) (otype : String) (price : Option ℚ) (now : ℤ)
    (h : BtNonNeg st) (hp : ∀ q, price = some q → 0 ≤ q) :
    BtNonNeg (executeTrade cfg st symbol side amount otype price now).2 := by
  obtain ⟨hb, hh, hpos⟩ := h
  unfold executeTrade
  rcases price with _ | p
  · exact ⟨hb, hh, hpos⟩
  · have hp0 : 0 ≤ p := hp p rfl
    simp only [resolveTradePrice]
    by_cases hz : p = 0
    · simp only [if_pos hz]; exact ⟨hb, hh, hpos⟩
    · simp only [if_neg hz]
      set A := resolveAmount cfg st symbol amount p with hA
      by_cases hA0 : A ≤ 0
      · simp only [if_pos hA0]; exact ⟨hb, hh, hpos⟩
      · simp only [if_neg hA0]
        push_neg at hA0
        have hcost : 0 ≤ A * p := mul_nonneg hA0.le hp0
        cases side
        · by_cases hlt : st.currentBalance < A * p
          · simp only [if_pos hlt]; exact ⟨hb, hh, hpos⟩
          · simp only [if_neg hlt]
            exact finishTrade_nonneg _ _ _ _ _ _ _ _
              ⟨sub_nonneg.mpr (not_lt.mp hlt),
               mapUpdate_nonneg (add_nonneg (hh symbol) hA0.le) hh,
               mapUpdate_nonneg (add_nonneg (hpos symbol) hA0.le) hpos⟩
        · by_cases hlt : st.holdings symbol < A
          · simp only [if_pos hlt]; exact ⟨hb, hh, hpos⟩
          · simp only [if_neg hlt]
            by_cases hlt2 : st.positions symbol < A
            · simp only [if_pos hlt2]
              exact ⟨add_nonneg hb hcost,
                mapUpdate_nonneg (sub_nonneg.mpr (not_lt.mp hlt)) hh, hpos⟩
            · simp only [if_neg hlt2]
              exact finishTrade_nonneg _ _ _ _ _ _ _ _
                ⟨add_nonneg (add_nonneg hb hcost) hcost,
                 mapUpdate_nonneg (sub_nonneg.mpr (not_lt.mp hlt)) hh,
                 mapUpdate_nonneg (sub_nonneg.mpr (not_lt.mp hlt2)) hpos⟩

/-- Folding backtest calls with non-negative prices preserves ledger
non-negativity. -/
theorem applyBtCalls_nonneg (cfg : Config) (calls : List BtCall) :
    ∀ st : BtState, BtNonNeg st →
      (∀ c ∈ calls, ∀ q, c.price = some q → 0 ≤ q) →
      BtNonNeg (applyBtCalls cfg st calls) := by
  induction calls with
  | nil => intro st h _; exact h
  | cons c rest ih =>
    intro st h hc
    have h1 := executeTrade_nonneg cfg st c.symbol c.side c.amount c.otype c.price c.now h
      (hc c (List.mem_cons_self c rest))
    exact ih _ h1 (fun d hd => hc d (List.mem_cons_of_mem c hd))

/-- One paper-trading `executeTrade` call with non-negative amount and
price keeps every virtual balance non-negative. -/
theorem paperExecuteTrade_nonneg (st : PaperState) (base quote : String) (side : Side)
    (amount : ℚ) (otype : String) (price : ℚ) (now : ℤ)
    (h : PaperNonNeg st) (ha : 0 ≤ amount) (hp : 0 ≤ price) :
    PaperNonNeg (paperExecuteTrade st base quote side amount otype price now).2 := by
  have hcost : 0 ≤ amount * price := mul_nonneg ha hp
  unfold paperExecuteTrade
  cases side
  · by_cases hlt : st.currentBalances quote < amount * price
    · simp only [if_pos hlt]; exact h
    · simp only [if_neg hlt]
      intro s
      refine mapUpdate_nonneg ?_ (mapUpdate_nonneg (sub_nonneg.mpr (not_lt.mp hlt)) h) s
      exact add_nonneg (mapUpdate_nonneg (sub_nonneg.mpr (not_lt.mp hlt)) h base) ha
  · by_cases hlt : st.currentBalances base < amount
    · simp only [if_pos hlt]; exact h
    · simp only [if_neg hlt]
      intro s
      refine mapUpdate_nonneg ?_ (mapUpdate_nonneg (add_nonneg (h quote) hcost) h) s
      have hbase : amount ≤ mapUpdate st.currentBalances quote
          (st.currentBalances quote + amount * price) base := by
        unfold mapUpdate
        split
        · rename_i hbq
          calc amount ≤ st.currentBalances base := not_lt.mp hlt
            _ = st.currentBalances quote := by rw [hbq]
            _ ≤ st.currentBalances quote + amount * price := le_add_of_nonneg_right hcost
        · exact not_lt.mp hlt
      exact sub_nonneg.mpr hbase

/-- Folding paper-trading calls with non-negative amounts and prices
preserves ledger non-negativity. -/
theorem applyPaperCalls_nonneg (calls : List PaperCall) :
    ∀ st : PaperState, PaperNonNeg st →
      (∀ c ∈ calls, 0 ≤ c.amount ∧ 0 ≤ c.price) →
      PaperNonNeg (applyPaperCalls st calls) := by
  induction calls with
  | nil => intro st h _; exact h
  | cons c rest ih =>
    intro st h hc
    have h1 := paperExecuteTrade_nonneg st c.base c.quote c.side c.amount c.otype c.price
      c.now h (hc c (List.mem_cons_self c rest)).1 (hc c (List.mem_cons_self c rest)).2
    exact ih _ h1 (fun d hd => hc d (List.mem_cons_of_mem c hd))

/-- C9: starting from non-negative cash and holdings, every state reachable
through any sequence of `executeTrade` calls — in the backtest ledger
(calls with non-negative prices) and in the paper-trading ledger (calls
with non-negative amounts and prices) — still has every balance
non-negative. -/
theorem ledger_balances_nonneg (cfg : Config) (btCalls : List BtCall)
    (pCalls : List PaperCall) (s0 : BtState) (q0 : PaperState)
    (hbt : ∀ c ∈ btCalls, ∀ q, c.price = some q → 0 ≤ q)
    (hpc : ∀ c ∈ pCalls, 0 ≤ c.amount ∧ 0 ≤ c.price)
    (hs0 : BtNonNeg s0) (hq0 : PaperNonNeg q0) :
    BtNonNeg (applyBtCalls cfg s0 btCalls) ∧ PaperNonNeg (applyPaperCalls q0 pCalls) :=
  ⟨applyBtCalls_nonneg cfg btCalls s0 hs0 hbt,
   applyPaperCalls_nonneg pCalls q0 hq0 hpc⟩

/-- Witness for C9 on concrete call sequences and initial ledgers. -/
theorem ledger_balances_nonneg_witness :
    BtNonNeg (applyBtCalls cfgA stHold1 btCallsW) ∧
    PaperNonNeg (applyPaperCalls paper0 pCallsW) :=
  ledger_balances_nonneg cfgA btCallsW pCallsW stHold1 paper0
    (by
      intro c hc q hq
      simp only [btCallsW, List.mem_singleton] at hc
      subst hc
      simp only [btCallsW] at hq
      have : (100 : ℚ) = q := by injection hq
      rw [← this]
      norm_num)
    (by
      intro c hc
      simp only [pCallsW, List.mem_singleton] at hc
      subst hc
      constructor <;> norm_num)
    ⟨le_refl 0,
     fun s => by simp only [stHold1, oneBTC]; split <;> norm_num,
     fun s => by simp only [stHold1, oneBTC]; split <;> norm_num⟩
    (fun s => by simp only [paper0]; split <;> norm_num)

/-- The function `executeTrade` reads the wall clock only to fill the id and `datetime`
fields of the logged trade: states agreeing up to those fields stay in
agreement, whatever the two clock readings are. -/
theorem executeTrade_agree (cfg : Config) (symbol : String) (side : Side)
    (amount : Option ℚ) (otype : String) (price : Option ℚ) (n1 n2 : ℤ)
    {s t : BtState} (h : BtAgree s t) :
    BtAgree (executeTrade cfg s symbol side amount otype price n1).2
            (executeTrade cfg t symbol side amount otype price n2).2 := by
  obtain ⟨sb, sh, sp, sl⟩ := s
  obtain ⟨tb, th, tp, tl⟩ := t
  obtain ⟨hb, hh, hp, hl⟩ := h
  dsimp only at hb hh hp hl
  subst hb; subst hh; subst hp
  have hlen : sl.length = tl.length := by
    simpa using congrArg List.length hl
  unfold executeTrade
  rcases price with _ | p
  · exact ⟨rfl, rfl, rfl, hl⟩
  · simp only [resolveTradePrice]
    by_cases hz : p = 0
    · simp only [if_pos hz]; exact ⟨rfl, rfl, rfl, hl⟩
    · simp only [if_neg hz]
      simp only [resolveAmount]
      set A := jsOr amount (calculateLotSize cfg symbol p sb none) with hA
      by_cases hA0 : A ≤ 0
      · simp only [if_pos hA0]; exact ⟨rfl, rfl, rfl, hl⟩
      · simp only [if_neg hA0]
        cases side
        · by_cases hlt : sb < A * p
          · simp only [if_pos hlt]; exact ⟨rfl, rfl, rfl, hl⟩
          · simp only [if_neg hlt, finishTrade]
            refine ⟨rfl, rfl, rfl, ?_⟩
            simp only [List.map_append, hl, List.map_cons, List.map_nil]
            simp [stripClock, hlen]
        · by_cases hlt : sh symbol < A
          · simp only [if_pos hlt]; exact ⟨rfl, rfl, rfl, hl⟩
          · simp only [if_neg hlt]
            by_cases hlt2 : sp symbol < A
            · simp only [if_pos hlt2]; exact ⟨rfl, rfl, rfl, hl⟩
            · simp only [if_neg hlt2, finishTrade]
              refine ⟨rfl, rfl, rfl, ?_⟩
              simp only [List.map_append, hl, List.map_cons, List.map_nil]
              simp [stripClock, hlen]

/-- The exit check preserves agreement up to wall-clock trade fields. -/
theorem monitorAndExit_agree {σ : Type} (cfg : Config) (clock1 clock2 : ℕ → ℤ)
    (strategy : Strategy σ) (symbol : String) (price : ℚ) {s t : FullState σ}
    (h : FsAgree s t) :
    FsAgree (monitorAndExitPositions cfg clock1 strategy s symbol price)
            (monitorAndExitPositions cfg clock2 strategy t symbol price) := by
  obtain ⟨hbt, hcp, hst, heq⟩ := h
  unfold monitorAndExitPositions
  rw [← hcp]
  cases hc : s.currentPositions symbol with
  | none => exact ⟨hbt, hcp, hst, heq⟩
  | some position =>
    dsimp only
    cases he : exitAction position price with
    | none => exact ⟨hbt, hcp, hst, heq⟩
    | some k =>
      dsimp only
      refine ⟨executeTrade_agree _ _ _ _ _ _ _ _ hbt, rfl, ?_, heq⟩
      rw [hst]

/-- A single strategy-emitted service call preserves agreement. -/
theorem applyCmd_agree {σ : Type} (cfg : Config) (clock1 clock2 : ℕ → ℤ)
    (symbol : String) (c : StratCmd) {s t : FullState σ} (h : FsAgree s t) :
    FsAgree (applyCmd cfg clock1 symbol s c) (applyCmd cfg clock2 symbol t c) := by
  obtain ⟨hbt, hcp, hst, heq⟩ := h
  cases c
  · exact ⟨executeTrade_agree _ _ _ _ _ _ _ _ hbt, hcp, hst, heq⟩
  · dsimp only [applyCmd]
    refine ⟨hbt, ?_, hst, heq⟩
    rw [hcp]

/-- Folding strategy-emitted service calls preserves agreement. -/
theorem foldl_applyCmd_agree {σ : Type} (cfg : Config) (clock1 clock2 : ℕ → ℤ)
    (symbol : String) (cmds : List StratCmd) :
    ∀ {s t : FullState σ}, FsAgree s t →
      FsAgree (cmds.foldl (applyCmd cfg clock1 symbol) s)
              (cmds.foldl (applyCmd cfg clock2 symbol) t) := by
  induction cmds with
  | nil => intro s t h; exact h
  | cons c rest ih =>
    intro s t h
    exact ih (applyCmd_agree cfg clock1 clock2 symbol c h)

/-- One loop iteration preserves agreement up to wall-clock trade fields. -/
theorem btStep_agree {σ : Type} (cfg : Config) (clock1 clock2 : ℕ → ℤ)
    (strategy : Strategy σ) (symbol : String) (c : Candle) (hist : List Candle)
    {s t : FullState σ} (h : FsAgree s t) :
    FsAgree (btStep cfg clock1 strategy symbol s c hist)
            (btStep cfg clock2 strategy symbol t c hist) := by
  have h1 := monitorAndExit_agree cfg clock1 clock2 strategy symbol c.close h
  obtain ⟨hbt1, hcp1, hst1, heq1⟩ := h1
  unfold btStep
  dsimp only
  rw [← hst1]
  have h3 := foldl_applyCmd_agree cfg clock1 clock2 symbol
    (strategy.run c hist
      (monitorAndExitPositions cfg clock1 strategy s symbol c.close).strat).2
    (s :=
      { bt := (monitorAndExitPositions cfg clock1 strategy s symbol c.close).bt
        currentPositions :=
          (monitorAndExitPositions cfg clock1 strategy s symbol c.close).currentPositions
        strat := (strategy.run c hist
          (monitorAndExitPositions cfg clock1 strategy s symbol c.close).strat).1
        equityCurve :=
          (monitorAndExitPositions cfg clock1 strategy s symbol c.close).equityCurve })
    (t :=
      { bt := (monitorAndExitPositions cfg clock2 strategy t symbol c.close).bt
        currentPositions :=
          (monitorAndExitPositions cfg clock2 strategy t symbol c.close).currentPositions
        strat := (strategy.run c hist
          (monitorAndExitPositions cfg clock1 strategy s symbol c.close).strat).1
        equityCurve :=
          (monitorAndExitPositions cfg clock2 strategy t symbol c.close).equityCurve })
    ⟨hbt1, hcp1, rfl, heq1⟩
  obtain ⟨hbt3, hcp3, hst3, heq3⟩ := h3
  exact ⟨hbt3, hcp3, hst3, by rw [heq3, hbt3.1]⟩

/-- The whole replay loop preserves agreement up to wall-clock fields. -/
theorem btLoop_agree {σ : Type} (cfg : Config) (clock1 clock2 : ℕ → ℤ)
    (strategy : Strategy σ) (symbol : String) (cs : List Candle) :
    ∀ (hist : List Candle) {s t : FullState σ}, FsAgree s t →
      FsAgree (btLoop cfg clock1 strategy symbol s hist cs)
              (btLoop cfg clock2 strategy symbol t hist cs) := by
  induction cs with
  | nil => intro hist s t h; exact h
  | cons c rest ih =>
    intro hist s t h
    exact ih (hist ++ [c]) (btStep_agree cfg clock1 clock2 strategy symbol c (hist ++ [c]) h)

/-- C3 amended: for a fixed candle sequence, configuration and strategy,
two executions of the backtest replay produce identical equity curves and
identical trade logs *except* in the two wall-clock-derived trade fields:
the `Date.now()` component of the id and the `datetime` field.  (The
sequence component of the id is the monotonic trade-log length, which is
identical across runs; but `datetime` is a wall-clock field outside the id,
so determinism "up to the id" fails.) -/
theorem runBacktest_clock_invariant {σ : Type} (cfg : Config) (strategy : Strategy σ)
    (symbol : String) (cap : ℚ) (clock1 clock2 : ℕ → ℤ) (candles : List Candle) :
    Option.map stripRun (runBacktest cfg strategy symbol cap clock1 candles) =
      Option.map stripRun (runBacktest cfg strategy symbol cap clock2 candles) := by
  cases candles with
  | nil => rfl
  | cons c0 cs =>
    have h := btLoop_agree cfg clock1 clock2 strategy symbol (c0 :: cs) []
      (s :=
        { bt := { currentBalance := cap, holdings := fun _ => 0,
                  positions := fun _ => 0, tradeLog := [] }
          currentPositions := fun _ => none
          strat := strategy.start
          equityCurve := [(c0.timestamp, cap)] })
      (t :=
        { bt := { currentBalance := cap, holdings := fun _ => 0,
                  positions := fun _ => 0, tradeLog := [] }
          currentPositions := fun _ => none
          strat := strategy.start
          equityCurve := [(c0.timestamp, cap)] })
      ⟨⟨rfl, rfl, rfl, rfl⟩, rfl, rfl, rfl⟩
    obtain ⟨⟨hb, _, _, hl⟩, _, _, heq⟩ := h
    simp only [runBacktest, Option.map, stripRun]
    rw [hb, hl, heq]

/-- Evaluation of a one-candle run of the buying strategy under an
arbitrary constant clock: the single logged trade keeps the clock value in
its `datetime` field even after the id is erased. -/
theorem stratBuy_run_stripId (n : ℤ) :
    Option.map (fun r => r.tradeLog.map stripId)
      (runBacktest cfgA stratBuy symBTC 10000 (fun _ => n) [candleA]) =
      some [{ symbol := symBTC, side := Side.buy, otype := mkt, amount := 1, price := 10,
              status := "closed", datetime := n, fee := 1 / 100 }] := by
  simp only [runBacktest, btLoop, btStep, monitorAndExitPositions, applyCmd, executeTrade,
    finishTrade, resolveTradePrice, resolveAmount, jsOr, stratBuy, candleA, stripId,
    List.foldl, Option.map, List.map]
  norm_num [stripId]

/-- C3 counterexample: two replays of the same single-candle data with the
same strategy and configuration, differing only in the wall clock, produce
trade logs that differ even after erasing the trade ids — the `datetime`
field records the wall clock of the run. -/
theorem runBacktest_wallclock_counterexample :
    Option.map (fun r => r.tradeLog.map stripId)
      (runBacktest cfgA stratBuy symBTC 10000 (fun _ => 0) [candleA]) ≠
    Option.map (fun r => r.tradeLog.map stripId)
      (runBacktest cfgA stratBuy symBTC 10000 (fun _ => 1) [candleA]) := by
  rw [stratBuy_run_stripId 0, stratBuy_run_stripId 1]
  simp

/-- The index loop computing per-step returns equals a `zipWith` over the
curve and its tail. -/
theorem stepReturns_eq_zipWith (l : List ℝ) :
    stepReturns l =
      List.zipWith (fun prev cur => if prev = 0 then 0 else (cur - prev) / prev)
        l l.tail := by
  induction l with
  | nil => rfl
  | cons a rest ih =>
    cases rest with
    | nil => rfl
    | cons b rest2 =>
      simp only [stepReturns, List.tail_cons, List.zipWith_cons_cons]
      rw [ih]
      rfl

/-- C7 amended: on an equity curve with at least two points the code
computes per-step returns as the claim says, but then returns the mean of
the *raw* returns divided by the *root-mean-square* of the excess returns
(not the mean excess return divided by their centered population standard
deviation), and when that root-mean-square is zero it returns `+∞`
unconditionally, whatever the sign of the mean. -/
theorem calculateSharpeRatio_amended (a b : ℝ) (rest : List ℝ) (r : ℝ) :
    calculateSharpeRatio (a :: b :: rest) r = sharpeAmendedC7 (a :: b :: rest) r := by
  unfold calculateSharpeRatio sharpeAmendedC7
  rw [← stepReturns_eq_zipWith]
  simp only [stepReturns, List.length_cons]
  norm_num

/-- C7 counterexample: on the two-point equity curve `[100, 110]` with
per-step risk-free rate `0.005` there is a single excess return, so the
claim's centered population standard deviation is `0` and the claim
requires `+∞` (the mean excess return `0.095` is positive) — but the code
divides the raw mean `0.1` by the root-mean-square `0.095` and returns a
finite number. -/
theorem calculateSharpeRatio_counterexample :
    calculateSharpeRatio [100, 110] (1 / 200) ≠ sharpeClaimC7 [100, 110] (1 / 200) := by
  have h1 : stepReturns [(100 : ℝ), 110] = [1 / 10] := by
    simp only [stepReturns]
    norm_num
  unfold calculateSharpeRatio sharpeClaimC7
  rw [h1]
  simp only [List.length_cons, List.length_nil, List.map_cons, List.map_nil,
    List.sum_cons, List.sum_nil]
  norm_num
  exact fun h => JsVal.noConfusion h

end KrakenBot
